import Mathlib

/-!
Verification of the reel2yt matching core.

Shallow embedding of `app/core/fingerprint.py` and
`app/services/matcher.py`.  Frame hashes are the bit sequences of the
64-bit pHash, modelled as `List Bool`.  Real-valued scores are modelled
over `ℚ`; the audio cosine similarity needs a square root and is
modelled over `ℝ`.
-/

namespace Reel2YT

/-- A perceptual frame hash: the sequence of bits of the pHash
(64 bits for a valid hash). -/
abbrev FrameHash := List Bool

/-- `_hamming`: imagehash subtraction counts differing bit positions. -/
def hamming (a b : FrameHash) : ℕ :=
  (List.zipWith (fun x y => x != y) a b).count true

/-- `min(_hamming(ha, hb) for hb in B)` inside `frame_similarity_score`;
the code only evaluates it with non-empty `B`. -/
def minDist (ha : FrameHash) (B : List FrameHash) : ℕ :=
  match B with
  | [] => 0
  | b :: bs => bs.foldl (fun m hb => Nat.min m (hamming ha hb)) (hamming ha b)

/-- `FrameMatchStats` from `fingerprint.py`. -/
structure FrameMatchStats where
  median : ℚ
  mean : ℚ
  p25 : ℚ
  p75 : ℚ
  match_frac : ℚ
  score : ℚ
  deriving DecidableEq

/-- Ascending sort, as numpy median/percentile sort their input. -/
def sortAsc (l : List ℚ) : List ℚ := List.insertionSort (· ≤ ·) l

/-- The fractional index `(n-1)·q/100` used by numpy's linear
interpolation. -/
def pIndex (n : ℕ) (q : ℚ) : ℚ := ((n : ℚ) - 1) * q / 100

/-- `np.percentile(arr, q)` with the default linear interpolation;
`np.median` is the `q = 50` case. -/
def percentileQ (l : List ℚ) (q : ℚ) : ℚ :=
  if l = [] then 0
  else
    let s := sortAsc l
    let h := pIndex l.length q
    let i := (⌊h⌋).toNat
    let a := s.getD i 0
    let b := s.getD (min (i + 1) (l.length - 1)) 0
    a + (h - (i : ℚ)) * (b - a)

/-- The statistics `frame_similarity_score` computes from the list of
per-frame minimum distances: median and percentiles, mean, the fraction
at or below the threshold, and `0.6·match_frac + 0.4·closeness`. -/
def frameStatsCore (dists : List ℚ) (t : ℤ) : FrameMatchStats :=
  let median := percentileQ dists 50
  let match_frac : ℚ :=
    (dists.countP (fun d => decide (d ≤ (t : ℚ))) : ℚ) / (dists.length : ℚ)
  let closeness : ℚ := max 0 (1 - median / 64)
  ⟨median, dists.sum / (dists.length : ℚ), percentileQ dists 25,
    percentileQ dists 75, match_frac, 6/10 * match_frac + 4/10 * closeness⟩

/-- `frame_similarity_score` from `fingerprint.py`.  The threshold
defaults to the configuration value 8 when absent. -/
def frame_similarity_score (hashes_a hashes_b : List FrameHash)
    (threshold : Option ℤ) : FrameMatchStats :=
  if hashes_a = [] ∨ hashes_b = [] then ⟨64, 64, 64, 64, 0, 0⟩
  else
    frameStatsCore (hashes_a.map (fun ha => (minDist ha hashes_b : ℚ)))
      (threshold.getD 8)

/-- `CombinedScore` from `fingerprint.py`. -/
structure CombinedScore where
  frames : FrameMatchStats
  audio : ℚ
  fused : ℚ
  deriving DecidableEq

/-- `fuse_scores` from `fingerprint.py`. -/
def fuse_scores (frame_stats : FrameMatchStats) (audio_sim : ℚ) : CombinedScore :=
  if 0 < audio_sim then
    ⟨frame_stats, audio_sim, 7/10 * frame_stats.score + 3/10 * audio_sim⟩
  else
    ⟨frame_stats, audio_sim, frame_stats.score⟩

/-- `np.linalg.norm`: Euclidean norm of a vector. -/
noncomputable def normE (a : List ℝ) : ℝ :=
  Real.sqrt ((a.map (fun x => x * x)).sum)

/-- `cosine` from `fingerprint.py`: zero when either norm is zero. -/
noncomputable def cosine (a b : List ℝ) : ℝ :=
  if normE a = 0 ∨ normE b = 0 then 0
  else (List.zipWith (fun x y => x * y) a b).sum / (normE a * normE b)

/-- Python falsiness of an optional vector: `None` or the empty list. -/
def audioAbsent : Option (List ℝ) → Bool
  | none => true
  | some [] => true
  | some (_ :: _) => false

/-- `audio_similarity_score` from `fingerprint.py`. -/
noncomputable def audio_similarity_score (vec_a vec_b : Option (List ℝ)) : ℝ :=
  if audioAbsent vec_a || audioAbsent vec_b then 0
  else max 0 (min 1 (cosine (vec_a.getD []) (vec_b.getD [])))

/-- `CandidateScore` from `matcher.py`. -/
structure CandidateScore where
  video_id : String
  url : String
  title : String
  channel : Option String
  yt_duration : Option ℚ
  frame_median : ℚ
  frame_match_frac : ℚ
  frame_score : ℚ
  audio_score : ℚ
  fused_score : ℚ
  title_ratio : ℚ
  reason : String
  deriving DecidableEq

/-- `_duration_ok` from `matcher.py`.  A `None` or `0` candidate duration
is falsy in Python (`if not yt_dur`) and passes the gate. -/
def duration_ok (ig_dur : ℚ) (yt_dur : Option ℚ) : Bool :=
  match yt_dur with
  | none => true
  | some c =>
    if c = 0 then true
    else
      let dd := |ig_dur - c|
      if ig_dur ≤ 60 then decide (dd ≤ 8)
      else if ig_dur ≤ 180 then decide (dd ≤ 12)
      else decide (dd ≤ 20)

/-- The tier tolerance applied by the duration gate. -/
def dtol (ig_dur : ℚ) : ℚ :=
  if ig_dur ≤ 60 then 8 else if ig_dur ≤ 180 then 12 else 20

/-- `pick_best` from `matcher.py`. -/
def pick_best (scored : List CandidateScore) : Option CandidateScore :=
  match scored with
  | [] => none
  | top :: _ =>
    if 62/100 ≤ top.fused_score ∧ 55/100 ≤ top.frame_match_frac then some top
    else none

/-- The algorithm version tag `_VER`. -/
def VER : String := "fp_v1"

/-- A parsed fingerprint cache record: its version tag and hash list. -/
structure FPRecord where
  ver : String
  hashes : List FrameHash
  deriving DecidableEq

/-- The state of the cache file for one content signature: either a
record that `_load_json` parses, or bytes it cannot parse. -/
inductive CacheEntry where
  | corrupt
  | record (r : FPRecord)
  deriving DecidableEq

/-- Result of a fingerprint request: the hashes returned, the cache
state afterwards, and whether the fingerprint was recomputed. -/
structure FetchResult where
  hashes : List FrameHash
  cache : Option CacheEntry
  recomputed : Bool
  deriving DecidableEq

/-- The cache discipline of `video_to_frame_hashes`: an existing record
whose version matches `_VER` is returned as-is; a missing, corrupt
(`_load_json` returns `None`) or version-mismatched record causes the
fingerprint to be recomputed and saved tagged with `_VER`. -/
def video_to_frame_hashes (cache : Option CacheEntry)
    (compute : List FrameHash) : FetchResult :=
  match cache with
  | some (.record r) =>
      if r.ver = VER then ⟨r.hashes, cache, false⟩
      else ⟨compute, some (.record ⟨VER, compute⟩), true⟩
  | some .corrupt => ⟨compute, some (.record ⟨VER, compute⟩), true⟩
  | none => ⟨compute, some (.record ⟨VER, compute⟩), true⟩

/-! ### Helper lemmas -/

lemma hamming_self (a : FrameHash) : hamming a a = 0 := by
  induction a with
  | nil => rfl
  | cons x xs ih =>
    simp only [hamming] at ih ⊢
    simpa [List.count_cons] using ih

lemma hamming_le (a b : FrameHash) (hb : b.length = 64) : hamming a b ≤ 64 := by
  calc hamming a b ≤ (List.zipWith (fun x y => x != y) a b).length :=
        List.count_le_length _ _
    _ = min a.length b.length := List.length_zipWith _ _ _
    _ ≤ b.length := min_le_right _ _
    _ = 64 := hb

lemma foldl_min_le_init (ha : FrameHash) (l : List FrameHash) (init : ℕ) :
    l.foldl (fun m hb => Nat.min m (hamming ha hb)) init ≤ init := by
  induction l generalizing init with
  | nil => exact le_refl _
  | cons b bs ih => exact le_trans (ih _) (Nat.min_le_left _ _)

lemma foldl_min_le_mem (ha : FrameHash) (l : List FrameHash) (init : ℕ)
    (hb : FrameHash) (hmem : hb ∈ l) :
    l.foldl (fun m x => Nat.min m (hamming ha x)) init ≤ hamming ha hb := by
  induction l generalizing init with
  | nil => cases hmem
  | cons c cs ih =>
    rcases List.mem_cons.mp hmem with h | h
    · subst h
      exact le_trans (foldl_min_le_init ha cs _) (Nat.min_le_right _ _)
    · exact ih _ h

lemma minDist_le (ha hb : FrameHash) (B : List FrameHash) (hmem : hb ∈ B) :
    minDist ha B ≤ hamming ha hb := by
  cases B with
  | nil => cases hmem
  | cons b bs =>
    rcases List.mem_cons.mp hmem with h | h
    · subst h; exact foldl_min_le_init ha bs _
    · exact foldl_min_le_mem ha bs _ hb h

lemma minDist_self (ha : FrameHash) (A : List FrameHash) (hmem : ha ∈ A) :
    minDist ha A = 0 :=
  Nat.le_zero.mp (hamming_self ha ▸ minDist_le ha ha A hmem)

lemma minDist_le_64 (ha : FrameHash) (B : List FrameHash) (hB : B ≠ [])
    (hlen : ∀ h ∈ B, h.length = 64) : minDist ha B ≤ 64 := by
  cases B with
  | nil => exact absurd rfl hB
  | cons b bs =>
    exact le_trans (foldl_min_le_init ha bs _)
      (hamming_le ha b (hlen b (List.mem_cons_self b bs)))

lemma percentileQ_cons (l : List ℚ) (q : ℚ) (hl : l ≠ []) :
    percentileQ l q =
      (sortAsc l).getD (⌊pIndex l.length q⌋).toNat 0 +
        (pIndex l.length q - ((⌊pIndex l.length q⌋).toNat : ℚ)) *
          ((sortAsc l).getD
              (min ((⌊pIndex l.length q⌋).toNat + 1) (l.length - 1)) 0 -
            (sortAsc l).getD (⌊pIndex l.length q⌋).toNat 0) := by
  simp only [percentileQ, if_neg hl]

lemma sortAsc_replicate_zero (n : ℕ) :
    sortAsc (List.replicate n (0:ℚ)) = List.replicate n 0 := by
  have hperm : List.Perm (sortAsc (List.replicate n (0:ℚ)))
      (List.replicate n 0) :=
    List.perm_insertionSort _ _
  refine List.eq_replicate_iff.mpr
    ⟨by simpa using hperm.length_eq, fun b hb => ?_⟩
  exact List.eq_of_mem_replicate (hperm.mem_iff.mp hb)

lemma getD_replicate_zero (n i : ℕ) :
    (List.replicate n (0:ℚ)).getD i 0 = 0 := by
  induction n generalizing i with
  | zero => rfl
  | succ n ih =>
    cases i with
    | zero => rfl
    | succ i => exact ih i

lemma percentileQ_replicate_zero (n : ℕ) (q : ℚ) (hn : n ≠ 0) :
    percentileQ (List.replicate n 0) q = 0 := by
  have hne : List.replicate n (0:ℚ) ≠ [] := by
    intro h
    exact hn (by simpa using congrArg List.length h)
  rw [percentileQ_cons _ _ hne, sortAsc_replicate_zero]
  simp [getD_replicate_zero]

lemma getD_mem_of_lt (s : List ℚ) (i : ℕ) (h : i < s.length) :
    s.getD i 0 ∈ s := by
  rw [List.getD_eq_getElem s 0 h]
  exact List.getElem_mem h

lemma percentileQ_bounds (l : List ℚ) (q : ℚ)
    (hmem : ∀ x ∈ l, 0 ≤ x ∧ x ≤ 64) (hq0 : 0 ≤ q) (hq1 : q ≤ 100) :
    0 ≤ percentileQ l q ∧ percentileQ l q ≤ 64 := by
  by_cases hl : l = []
  · subst hl
    refine ⟨by norm_num [percentileQ], by norm_num [percentileQ]⟩
  · rw [percentileQ_cons l q hl]
    have hperm : List.Perm (sortAsc l) l := List.perm_insertionSort _ l
    have hslen : (sortAsc l).length = l.length := hperm.length_eq
    have hmem' : ∀ x ∈ sortAsc l, 0 ≤ x ∧ x ≤ 64 := fun x hx =>
      hmem x (hperm.mem_iff.mp hx)
    have hn : 0 < l.length := List.length_pos.mpr hl
    have hn1 : (1:ℚ) ≤ (l.length : ℚ) := by exact_mod_cast hn
    set h := pIndex l.length q with hh
    have hh0 : 0 ≤ h := by
      rw [hh, pIndex]
      exact div_nonneg (mul_nonneg (by linarith) hq0) (by norm_num)
    have hhle : h ≤ (l.length : ℚ) - 1 := by
      rw [hh, pIndex, div_le_iff₀ (by norm_num : (0:ℚ) < 100)]
      nlinarith
    have hfl0 : (0:ℤ) ≤ ⌊h⌋ := Int.le_floor.mpr (by exact_mod_cast hh0)
    have hif : ((⌊h⌋.toNat : ℕ) : ℚ) = ((⌊h⌋ : ℤ) : ℚ) := by
      exact_mod_cast Int.toNat_of_nonneg hfl0
    have hile : ((⌊h⌋.toNat : ℕ) : ℚ) ≤ h := by
      rw [hif]; exact Int.floor_le h
    have hfr1 : h - ((⌊h⌋.toNat : ℕ) : ℚ) < 1 := by
      rw [hif]
      have := Int.lt_floor_add_one h
      linarith
    have hfr0 : 0 ≤ h - ((⌊h⌋.toNat : ℕ) : ℚ) := sub_nonneg.mpr hile
    have hilt : ⌊h⌋.toNat < l.length := by
      by_contra hcon
      push_neg at hcon
      have hge : (l.length : ℚ) ≤ ((⌊h⌋.toNat : ℕ) : ℚ) := by exact_mod_cast hcon
      linarith
    have hblt : min (⌊h⌋.toNat + 1) (l.length - 1) < l.length :=
      lt_of_le_of_lt (min_le_right _ _) (Nat.sub_lt hn (by norm_num))
    obtain ⟨ha0, ha64⟩ :=
      hmem' _ (getD_mem_of_lt (sortAsc l) _ (by rw [hslen]; exact hilt))
    obtain ⟨hb0, hb64⟩ :=
      hmem' _ (getD_mem_of_lt (sortAsc l) _ (by rw [hslen]; exact hblt))
    constructor
    · nlinarith [mul_nonneg hfr0 hb0,
        mul_nonneg (sub_nonneg.mpr (le_of_lt hfr1)) ha0]
    · nlinarith [mul_nonneg hfr0 (sub_nonneg.mpr hb64),
        mul_nonneg (sub_nonneg.mpr (le_of_lt hfr1)) (sub_nonneg.mpr ha64)]

lemma frameStatsCore_median (dists : List ℚ) (t : ℤ) :
    (frameStatsCore dists t).median = percentileQ dists 50 := rfl

lemma frameStatsCore_mean (dists : List ℚ) (t : ℤ) :
    (frameStatsCore dists t).mean = dists.sum / (dists.length : ℚ) := rfl

lemma frameStatsCore_p25 (dists : List ℚ) (t : ℤ) :
    (frameStatsCore dists t).p25 = percentileQ dists 25 := rfl

lemma frameStatsCore_p75 (dists : List ℚ) (t : ℤ) :
    (frameStatsCore dists t).p75 = percentileQ dists 75 := rfl

lemma frameStatsCore_match_frac (dists : List ℚ) (t : ℤ) :
    (frameStatsCore dists t).match_frac =
      (dists.countP (fun d => decide (d ≤ (t : ℚ))) : ℚ) / (dists.length : ℚ) :=
  rfl

lemma frameStatsCore_score (dists : List ℚ) (t : ℤ) :
    (frameStatsCore dists t).score =
      6/10 * ((dists.countP (fun d => decide (d ≤ (t : ℚ))) : ℚ) /
          (dists.length : ℚ)) +
        4/10 * max 0 (1 - percentileQ dists 50 / 64) := rfl

lemma zipmul_comm (a b : List ℝ) :
    List.zipWith (fun x y => x * y) a b = List.zipWith (fun x y => x * y) b a :=
  List.zipWith_comm_of_comm _ mul_comm a b

lemma cosine_comm (a b : List ℝ) : cosine a b = cosine b a := by
  unfold cosine
  rw [zipmul_comm]
  by_cases h : normE a = 0 ∨ normE b = 0
  · rw [if_pos h, if_pos h.symm]
  · rw [if_neg h, if_neg (fun hc => h hc.symm), mul_comm (normE a) (normE b)]

lemma frameScore_empty (A B : List FrameHash) (th : Option ℤ)
    (h : A = [] ∨ B = []) :
    frame_similarity_score A B th = ⟨64, 64, 64, 64, 0, 0⟩ := by
  simp only [frame_similarity_score]
  rw [if_pos h]

lemma frameScore_ne (A B : List FrameHash) (th : Option ℤ)
    (hA : A ≠ []) (hB : B ≠ []) :
    frame_similarity_score A B th =
      frameStatsCore (A.map (fun ha => (minDist ha B : ℚ))) (th.getD 8) := by
  simp only [frame_similarity_score]
  rw [if_neg (not_or.mpr ⟨hA, hB⟩)]

lemma fuseFused_pos (st : FrameMatchStats) (a : ℚ) (h : 0 < a) :
    (fuse_scores st a).fused = 7/10 * st.score + 3/10 * a := by
  simp [fuse_scores, h]

lemma fuseFused_nonpos (st : FrameMatchStats) (a : ℚ) (h : ¬ 0 < a) :
    (fuse_scores st a).fused = st.score := by
  simp [fuse_scores, h]

/-- A fixed perfect-match stats record used as a concrete input. -/
def statsOne : FrameMatchStats := ⟨0, 0, 0, 0, 1, 1⟩

/-- A fixed candidate record used as a concrete input. -/
def sampleCand : CandidateScore :=
  ⟨"vid", "u", "t", none, none, 0, 6/10, 0, 0, 7/10, 0, ""⟩

/-! ### Claims -/

/-- Claim C1: for every non-empty candidate list sorted by fused score
descending, `pick_best` returns the top entry iff its fused score is at
least 0.62 and its frame match fraction at least 0.55; otherwise, and on
the empty list, it returns no match. -/
theorem pick_best_spec :
    pick_best [] = none ∧
    ∀ (top : CandidateScore) (rest : List CandidateScore),
      List.Sorted (fun x y => y.fused_score ≤ x.fused_score) (top :: rest) →
      ((pick_best (top :: rest) = some top ↔
          62/100 ≤ top.fused_score ∧ 55/100 ≤ top.frame_match_frac) ∧
        (¬(62/100 ≤ top.fused_score ∧ 55/100 ≤ top.frame_match_frac) →
          pick_best (top :: rest) = none)) := by
  refine ⟨rfl, fun top rest _ => ?_⟩
  by_cases hc : 62/100 ≤ top.fused_score ∧ 55/100 ≤ top.frame_match_frac
  · exact ⟨by simp [pick_best, hc], fun h => absurd hc h⟩
  · exact ⟨by simp [pick_best, hc], fun _ => by simp [pick_best, hc]⟩

/-- Witness for C1 at a concrete singleton list. -/
theorem pick_best_spec_witness :
    List.Sorted (fun x y : CandidateScore => y.fused_score ≤ x.fused_score)
      [sampleCand] ∧
    pick_best [sampleCand] = some sampleCand :=
  ⟨List.sorted_singleton _,
    (pick_best_spec.2 sampleCand [] (List.sorted_singleton _)).1.mpr
      (by constructor <;> norm_num [sampleCand])⟩

/-- Counterexample to C2 as stated: a positive audio similarity below the
frame score strictly lowers the fused score. -/
theorem fuse_scores_subtracts_cx :
    (fuse_scores statsOne (1/10)).fused < statsOne.score := by
  norm_num [fuse_scores, statsOne]

/-- Claim C2 (amended): the fused score is at least the frame score
exactly when the audio similarity is non-positive (audio absent, fused
equals frame score) or at least the frame score; a positive audio
similarity below the frame score lowers the fused score. -/
theorem fuse_scores_ge_iff (st : FrameMatchStats) (a : ℚ) :
    st.score ≤ (fuse_scores st a).fused ↔ a ≤ 0 ∨ st.score ≤ a := by
  by_cases h : 0 < a
  · rw [fuseFused_pos st a h]
    constructor
    · intro hle; right; linarith
    · rintro (h0 | hs)
      · linarith
      · linarith
  · rw [fuseFused_nonpos st a h]
    exact iff_of_true (le_refl _) (Or.inl (le_of_not_lt h))

/-- Witness for C2 (amended) at a concrete input. -/
theorem fuse_scores_ge_iff_witness :
    ((2:ℚ) ≤ 0 ∨ statsOne.score ≤ 2) ∧
    statsOne.score ≤ (fuse_scores statsOne 2).fused :=
  ⟨Or.inr (by decide), (fuse_scores_ge_iff statsOne 2).mpr (Or.inr (by decide))⟩

/-- Claim C3: when the audio similarity is positive, the fused score is
`0.7·frame_score + 0.3·audio`; when non-positive, it equals the frame
score exactly; with the frame stats fixed, the fused score is strictly
increasing in the audio similarity over positive values. -/
theorem fuse_scores_formula (st : FrameMatchStats) (a : ℚ) :
    (0 < a → (fuse_scores st a).fused = 7/10 * st.score + 3/10 * a) ∧
    (a ≤ 0 → (fuse_scores st a).fused = st.score) ∧
    (∀ a2 : ℚ, 0 < a → a < a2 →
      (fuse_scores st a).fused < (fuse_scores st a2).fused) := by
  refine ⟨fun h => fuseFused_pos st a h,
    fun h => fuseFused_nonpos st a (not_lt.mpr h), fun a2 h1 h2 => ?_⟩
  rw [fuseFused_pos st a h1, fuseFused_pos st a2 (lt_trans h1 h2)]
  linarith

/-- Witness for C3 at concrete inputs. -/
theorem fuse_scores_formula_witness :
    ((0:ℚ) < 1/2 ∧
      (fuse_scores statsOne (1/2)).fused = 7/10 * statsOne.score + 3/10 * (1/2)) ∧
    ((0:ℚ) ≤ 0 ∧ (fuse_scores statsOne 0).fused = statsOne.score) ∧
    ((0:ℚ) < 1/2 ∧ (1/2:ℚ) < 3/4 ∧
      (fuse_scores statsOne (1/2)).fused < (fuse_scores statsOne (3/4)).fused) :=
  ⟨⟨by norm_num, (fuse_scores_formula statsOne (1/2)).1 (by norm_num)⟩,
    ⟨le_refl 0, (fuse_scores_formula statsOne 0).2.1 (le_refl 0)⟩,
    ⟨by norm_num, by norm_num,
      (fuse_scores_formula statsOne (1/2)).2.2 (3/4) (by norm_num) (by norm_num)⟩⟩

/-- Counterexample to C4 as stated: a candidate whose reported duration
is the known value 0 differs from the 50 s reference by more than the
8 s tolerance, yet the gate passes it. -/
theorem duration_gate_cx :
    duration_ok 50 (some 0) = true ∧ (some (0:ℚ) ≠ (none : Option ℚ)) ∧
      dtol 50 < |(50:ℚ) - 0| := by
  refine ⟨by decide, by decide, by norm_num [dtol]⟩

/-- Claim C4 (amended): the gate rejects exactly when the candidate
duration is known and non-zero and the absolute difference from the
reference exceeds the tier tolerance (8 s for references up to 60 s,
12 s up to 180 s, 20 s beyond); reference 50 s vs candidate 59 s is
rejected; an unknown candidate duration always passes. -/
theorem duration_ok_spec :
    (∀ (d : ℚ) (c : Option ℚ),
        duration_ok d c = false ↔
          ∃ v, c = some v ∧ v ≠ 0 ∧ dtol d < |d - v|) ∧
    duration_ok 50 (some 59) = false ∧
    (∀ d : ℚ, duration_ok d none = true) := by
  have h59 : duration_ok 50 (some 59) = false := by
    have : |(50:ℚ) - 59| = 9 := by rw [abs_sub_comm]; norm_num
    norm_num [duration_ok, this]
  refine ⟨?_, h59, fun d => rfl⟩
  intro d c
  cases c with
  | none => simp [duration_ok]
  | some v =>
    by_cases hv : v = 0
    · subst hv; simp [duration_ok]
    · have hrw : duration_ok d (some v) = decide (|d - v| ≤ dtol d) := by
        simp only [duration_ok, dtol, if_neg hv]
        split_ifs <;> rfl
      rw [hrw]
      simp [hv, not_le]

/-- Witness for C4 (amended) at a concrete rejected candidate. -/
theorem duration_ok_spec_witness :
    ((some (70:ℚ)) = some (70:ℚ) ∧ (70:ℚ) ≠ 0 ∧ dtol 50 < |(50:ℚ) - 70|) ∧
    duration_ok 50 (some 70) = false :=
  ⟨⟨rfl, by norm_num, by norm_num [dtol]⟩,
    (duration_ok_spec.1 50 (some 70)).mpr
      ⟨70, rfl, by norm_num, by norm_num [dtol]⟩⟩

/-- Claim C6: whenever either hash list is empty, the frame similarity
returns the worst possible stats instead of failing. -/
theorem frame_similarity_empty (A B : List FrameHash) (t : Option ℤ)
    (h : A = [] ∨ B = []) :
    frame_similarity_score A B t = ⟨64, 64, 64, 64, 0, 0⟩ :=
  frameScore_empty A B t h

/-- Witness for C6 with an empty left side. -/
theorem frame_similarity_empty_witness :
    (([] : List FrameHash) = [] ∨ ([[true]] : List FrameHash) = []) ∧
    frame_similarity_score [] [[true]] (some 8) = ⟨64, 64, 64, 64, 0, 0⟩ :=
  ⟨Or.inl rfl, frame_similarity_empty [] [[true]] (some 8) (Or.inl rfl)⟩

/-- Claim C7: a stored record whose version tag matches the current one
is returned without recomputation; a missing, version-mismatched or
corrupt record causes recomputation, the result being persisted tagged
with the current version and returned. -/
theorem video_to_frame_hashes_spec :
    (∀ (hs compute : List FrameHash),
        video_to_frame_hashes (some (.record ⟨VER, hs⟩)) compute =
          ⟨hs, some (.record ⟨VER, hs⟩), false⟩) ∧
    (∀ (v : String) (hs compute : List FrameHash), v ≠ VER →
        video_to_frame_hashes (some (.record ⟨v, hs⟩)) compute =
          ⟨compute, some (.record ⟨VER, compute⟩), true⟩) ∧
    (∀ compute : List FrameHash,
        video_to_frame_hashes (some .corrupt) compute =
          ⟨compute, some (.record ⟨VER, compute⟩), true⟩) ∧
    (∀ compute : List FrameHash,
        video_to_frame_hashes none compute =
          ⟨compute, some (.record ⟨VER, compute⟩), true⟩) := by
  refine ⟨fun hs compute => ?_, fun v hs compute hv => ?_,
    fun compute => rfl, fun compute => rfl⟩
  · simp [video_to_frame_hashes]
  · simp [video_to_frame_hashes, hv]

/-- Witness for C7 at a concrete version mismatch. -/
theorem video_to_frame_hashes_spec_witness :
    ("fp_v0" ≠ VER) ∧
    video_to_frame_hashes (some (.record ⟨"fp_v0", [[true]]⟩)) [] =
      ⟨[], some (.record ⟨VER, []⟩), true⟩ :=
  ⟨by decide, video_to_frame_hashes_spec.2.1 "fp_v0" [[true]] [] (by decide)⟩

/-- Claim C5: comparing a non-empty hash list with itself yields median
distance 0, match fraction 1 and frame score 1, for every non-negative
threshold. -/
theorem frame_similarity_self (A : List FrameHash) (t : ℤ)
    (hA : A ≠ []) (ht : 0 ≤ t) :
    (frame_similarity_score A A (some t)).median = 0 ∧
    (frame_similarity_score A A (some t)).match_frac = 1 ∧
    (frame_similarity_score A A (some t)).score = 1 := by
  have hmap : A.map (fun ha => (minDist ha A : ℚ)) = List.replicate A.length 0 := by
    have hz : ∀ ha ∈ A, ((minDist ha A : ℕ) : ℚ) = (fun _ : FrameHash => (0:ℚ)) ha := by
      intro ha hmem
      rw [minDist_self ha A hmem]
      norm_num
    rw [List.map_congr_left hz]
    simp
  have hlen : A.length ≠ 0 := fun h => hA (List.length_eq_zero.mp h)
  rw [frameScore_ne A A (some t) hA hA, hmap]
  have hmed : percentileQ (List.replicate A.length 0) 50 = 0 :=
    percentileQ_replicate_zero A.length 50 hlen
  have hcount :
      (List.replicate A.length (0:ℚ)).countP
          (fun d => decide (d ≤ (((some t).getD 8 : ℤ) : ℚ))) = A.length := by
    have hall : ∀ a ∈ List.replicate A.length (0:ℚ),
        decide (a ≤ (((some t).getD 8 : ℤ) : ℚ)) = true := by
      intro a ha
      rw [List.eq_of_mem_replicate ha]
      simp only [decide_eq_true_eq, Option.getD_some]
      exact_mod_cast ht
    simpa using List.countP_eq_length.mpr hall
  have hfrac :
      ((List.replicate A.length (0:ℚ)).countP
            (fun d => decide (d ≤ (((some t).getD 8 : ℤ) : ℚ))) : ℚ) /
          ((List.replicate A.length (0:ℚ)).length : ℚ) = 1 := by
    rw [hcount]
    simp only [List.length_replicate]
    exact div_self (by exact_mod_cast hlen)
  refine ⟨?_, ?_, ?_⟩
  · rw [frameStatsCore_median]
    exact hmed
  · rw [frameStatsCore_match_frac]
    exact hfrac
  · rw [frameStatsCore_score, hmed]
    rw [show ((List.replicate A.length (0:ℚ)).countP
          (fun d => decide (d ≤ (((some t).getD 8 : ℤ) : ℚ))) : ℚ) /
          ((List.replicate A.length (0:ℚ)).length : ℚ) = 1 from hfrac]
    norm_num

/-- Witness for C5 at a concrete one-hash list. -/
theorem frame_similarity_self_witness :
    ([List.replicate 64 false] : List FrameHash) ≠ [] ∧ (0:ℤ) ≤ 8 ∧
    ((frame_similarity_score [List.replicate 64 false]
        [List.replicate 64 false] (some 8)).median = 0 ∧
      (frame_similarity_score [List.replicate 64 false]
        [List.replicate 64 false] (some 8)).match_frac = 1 ∧
      (frame_similarity_score [List.replicate 64 false]
        [List.replicate 64 false] (some 8)).score = 1) :=
  ⟨by simp, by norm_num,
    frame_similarity_self [List.replicate 64 false] 8 (by simp) (by norm_num)⟩

/-- Claim C9: for lists of valid 64-bit hashes and a non-negative
threshold, the frame similarity stats stay in range: match fraction and
score in `[0,1]`, median, mean and percentiles in `[0,64]`. -/
theorem frame_similarity_bounds (A B : List FrameHash) (t : ℤ)
    (hA : ∀ h ∈ A, h.length = 64) (hB : ∀ h ∈ B, h.length = 64)
    (ht : 0 ≤ t) :
    0 ≤ (frame_similarity_score A B (some t)).match_frac ∧
    (frame_similarity_score A B (some t)).match_frac ≤ 1 ∧
    0 ≤ (frame_similarity_score A B (some t)).score ∧
    (frame_similarity_score A B (some t)).score ≤ 1 ∧
    0 ≤ (frame_similarity_score A B (some t)).median ∧
    (frame_similarity_score A B (some t)).median ≤ 64 ∧
    0 ≤ (frame_similarity_score A B (some t)).mean ∧
    (frame_similarity_score A B (some t)).mean ≤ 64 ∧
    0 ≤ (frame_similarity_score A B (some t)).p25 ∧
    (frame_similarity_score A B (some t)).p25 ≤ 64 ∧
    0 ≤ (frame_similarity_score A B (some t)).p75 ∧
    (frame_similarity_score A B (some t)).p75 ≤ 64 := by
  by_cases he : A = [] ∨ B = []
  · rw [frameScore_empty A B (some t) he]
    norm_num
  · push_neg at he
    obtain ⟨hAne, hBne⟩ := he
    rw [frameScore_ne A B (some t) hAne hBne]
    simp only [Option.getD_some]
    set dists := A.map (fun ha => (minDist ha B : ℚ)) with hd
    have hdm : ∀ x ∈ dists, 0 ≤ x ∧ x ≤ 64 := by
      intro x hx
      rw [hd] at hx
      obtain ⟨ha, _, rfl⟩ := List.mem_map.mp hx
      refine ⟨by positivity, ?_⟩
      exact_mod_cast minDist_le_64 ha B hBne hB
    have hlen0 : 0 < dists.length := by
      rw [hd, List.length_map]
      exact List.length_pos.mpr hAne
    have hlenQ : (0:ℚ) < (dists.length : ℚ) := by exact_mod_cast hlen0
    have hmed := percentileQ_bounds dists 50 hdm (by norm_num) (by norm_num)
    have hp25 := percentileQ_bounds dists 25 hdm (by norm_num) (by norm_num)
    have hp75 := percentileQ_bounds dists 75 hdm (by norm_num) (by norm_num)
    have hmf0 : 0 ≤ (dists.countP (fun d => decide (d ≤ (t : ℚ))) : ℚ) /
        (dists.length : ℚ) :=
      div_nonneg (by positivity) (le_of_lt hlenQ)
    have hmf1 : (dists.countP (fun d => decide (d ≤ (t : ℚ))) : ℚ) /
        (dists.length : ℚ) ≤ 1 := by
      rw [div_le_one hlenQ]
      exact_mod_cast List.countP_le_length _
    have hcl0 : 0 ≤ max 0 (1 - percentileQ dists 50 / 64) := le_max_left _ _
    have hcl1 : max 0 (1 - percentileQ dists 50 / 64) ≤ 1 := by
      refine max_le (by norm_num) ?_
      have := hmed.1
      linarith
    refine ⟨?_, ?_, ?_, ?_, ?_, ?_, ?_, ?_, ?_, ?_, ?_, ?_⟩
    · rw [frameStatsCore_match_frac]
      exact hmf0
    · rw [frameStatsCore_match_frac]
      exact hmf1
    · rw [frameStatsCore_score]
      have := mul_nonneg (by norm_num : (0:ℚ) ≤ 6/10) hmf0
      have := mul_nonneg (by norm_num : (0:ℚ) ≤ 4/10) hcl0
      linarith
    · rw [frameStatsCore_score]
      nlinarith [hmf1, hcl1, hmf0, hcl0]
    · rw [frameStatsCore_median]
      exact hmed.1
    · rw [frameStatsCore_median]
      exact hmed.2
    · rw [frameStatsCore_mean]
      exact div_nonneg (List.sum_nonneg fun x hx => (hdm x hx).1)
        (le_of_lt hlenQ)
    · rw [frameStatsCore_mean]
      rw [div_le_iff₀ hlenQ]
      have hs := List.sum_le_card_nsmul dists 64 (fun x hx => (hdm x hx).2)
      rw [nsmul_eq_mul] at hs
      linarith
    · rw [frameStatsCore_p25]
      exact hp25.1
    · rw [frameStatsCore_p25]
      exact hp25.2
    · rw [frameStatsCore_p75]
      exact hp75.1
    · rw [frameStatsCore_p75]
      exact hp75.2

/-- Witness for C9 at a concrete pair of valid 64-bit hashes. -/
theorem frame_similarity_bounds_witness :
    (∀ h ∈ ([List.replicate 64 false] : List FrameHash), h.length = 64) ∧
    (∀ h ∈ ([List.replicate 64 true] : List FrameHash), h.length = 64) ∧
    (0:ℤ) ≤ 8 ∧
    (0 ≤ (frame_similarity_score [List.replicate 64 false]
        [List.replicate 64 true] (some 8)).match_frac ∧
      (frame_similarity_score [List.replicate 64 false]
        [List.replicate 64 true] (some 8)).match_frac ≤ 1 ∧
      0 ≤ (frame_similarity_score [List.replicate 64 false]
        [List.replicate 64 true] (some 8)).score ∧
      (frame_similarity_score [List.replicate 64 false]
        [List.replicate 64 true] (some 8)).score ≤ 1 ∧
      0 ≤ (frame_similarity_score [List.replicate 64 false]
        [List.replicate 64 true] (some 8)).median ∧
      (frame_similarity_score [List.replicate 64 false]
        [List.replicate 64 true] (some 8)).median ≤ 64 ∧
      0 ≤ (frame_similarity_score [List.replicate 64 false]
        [List.replicate 64 true] (some 8)).mean ∧
      (frame_similarity_score [List.replicate 64 false]
        [List.replicate 64 true] (some 8)).mean ≤ 64 ∧
      0 ≤ (frame_similarity_score [List.replicate 64 false]
        [List.replicate 64 true] (some 8)).p25 ∧
      (frame_similarity_score [List.replicate 64 false]
        [List.replicate 64 true] (some 8)).p25 ≤ 64 ∧
      0 ≤ (frame_similarity_score [List.replicate 64 false]
        [List.replicate 64 true] (some 8)).p75 ∧
      (frame_similarity_score [List.replicate 64 false]
        [List.replicate 64 true] (some 8)).p75 ≤ 64) :=
  ⟨by simp, by simp, by norm_num,
    frame_similarity_bounds [List.replicate 64 false] [List.replicate 64 true]
      8 (by simp) (by simp) (by norm_num)⟩

/-- Claim C8: audio similarity is symmetric in its two arguments, always
lies in `[0,1]`, and is exactly 0 whenever either side is absent
(`None` or empty, both falsy in Python). -/
theorem audio_similarity_spec :
    (∀ va vb : Option (List ℝ),
        audio_similarity_score va vb = audio_similarity_score vb va) ∧
    (∀ va vb : Option (List ℝ),
        0 ≤ audio_similarity_score va vb ∧ audio_similarity_score va vb ≤ 1) ∧
    (∀ va vb : Option (List ℝ),
        audioAbsent va = true ∨ audioAbsent vb = true →
          audio_similarity_score va vb = 0) := by
  refine ⟨fun va vb => ?_, fun va vb => ?_, fun va vb h => ?_⟩
  · unfold audio_similarity_score
    by_cases h : (audioAbsent va || audioAbsent vb) = true
    · rw [if_pos h, if_pos (by rwa [Bool.or_comm] at h)]
    · rw [if_neg h, if_neg (by rwa [Bool.or_comm] at h), cosine_comm]
  · unfold audio_similarity_score
    split_ifs with h
    · norm_num
    · exact ⟨le_max_left 0 _, max_le (by norm_num) (min_le_left 1 _)⟩
  · unfold audio_similarity_score
    rw [if_pos (by simpa [Bool.or_eq_true] using h)]

/-- Witness for C8 at a concrete absent input. -/
theorem audio_similarity_spec_witness :
    (audioAbsent none = true ∨ audioAbsent (some [(1:ℝ)]) = true) ∧
    audio_similarity_score none (some [(1:ℝ)]) = 0 :=
  ⟨Or.inl rfl, audio_similarity_spec.2.2 none (some [(1:ℝ)]) (Or.inl rfl)⟩

/-- Claim C10: a candidate whose reported duration is exactly 0 passes
the duration gate for every reference duration, because a zero duration
is falsy and treated like an unknown one. -/
theorem duration_ok_zero_passes (d : ℚ) : duration_ok d (some 0) = true := by
  simp [duration_ok]

end Reel2YT
